import Mathlib

set_option maxRecDepth 8192

/-!
Shallow embedding of `pcse/fileinput/cabo_reader.py` (the CABO parameter-file
reader).  Lines of text are modelled as `List Char`; the regex-based extraction
is modelled by deterministic maximal-munch matchers that are equivalent to the
three concrete patterns used in the source (`_re_scalar`, `_re_table`,
`_re_string`): each pattern is a sequence of disjoint greedy character classes
(plus one lazy `.*?` up to a quote), for which backtracking can never produce a
different match than maximal munch.  Python `float`/`int` conversions are
modelled over `ℚ`/`ℤ` (decimal and exponent notation; every literal reachable
from the table character class is exact in `ℚ`).
-/

abbrev Line := List Char

/-- The single-quote character `'` (the CABO string delimiter). -/
def squote : Char := Char.ofNat 39

/-- The double-quote character. -/
def dquote : Char := Char.ofNat 34

/-- Characters removed by Python `str.strip(" \n\r")` as used in
`_remove_whitespace`.  Note: this set does not contain the tab character. -/
def isStripChar (c : Char) : Bool := c == ' ' || c == '\n' || c == '\r'

/-- Python whitespace, as matched by `\s` in the patterns and stripped by
argument-less `str.strip()`: space, tab, LF, CR, VT, FF. -/
def isWSChar (c : Char) : Bool :=
  c == ' ' || c == '\t' || c == '\n' || c == '\r' || c == Char.ofNat 11 || c == Char.ofNat 12

/-- Remove trailing characters satisfying `p`. -/
def stripTrail (p : Char → Bool) (l : Line) : Line := (l.reverse.dropWhile p).reverse

/-- Remove leading and trailing characters satisfying `p` (Python `str.strip`). -/
def stripBoth (p : Char → Bool) (l : Line) : Line := stripTrail p (l.dropWhile p)

/-- `_remove_inline_comments`: per line, keep only the text before the first `!`
(`line.split("!")[0]`). -/
def removeInlineComments (fc : List Line) : List Line :=
  fc.map (fun l => l.takeWhile (fun c => !(c == '!')))

/-- `_remove_whitespace`: per line, `line.strip(" \n\r")`. -/
def removeWhitespace (fc : List Line) : List Line :=
  fc.map (fun l => stripBoth isStripChar l)

/-- `_remove_empty_lines`: keep lines with `len(line) > 0`. -/
def removeEmptyLines (fc : List Line) : List Line :=
  fc.filter (fun l => decide (0 < l.length))

/-- The normalization pipeline exactly as called in `CABOFileReader.__init__`:
inline comments, then whitespace, then empty lines. -/
def normalizeLines (raw : List Line) : List Line :=
  removeEmptyLines (removeWhitespace (removeInlineComments raw))

/-- `_is_comment`: `line.startswith("*")`. -/
def isComment (l : Line) : Bool :=
  match l with
  | [] => false
  | c :: _ => c == '*'

/-- Errors raised by `_parse_table_values`: `LengthError((len, valuestrs))`,
`XYPairsError((len, valuestrs))`, and `ValueError` from `float(vstr)`. -/
inductive TableErr
  | lengthError (found : Nat) (tokens : List Line)
  | xyPairsError (found : Nat) (tokens : List Line)
  | valueError (token : Line)
deriving DecidableEq

/-- Errors escaping the reader (`PCSEError`/`XYPairsError` in the source),
with the data each error message carries. -/
inductive CaboError
  | emptyInput
  | noBody
  | malformedDefinition (pardefs : List Line) (rest : Line)
  | unpackError (parstr : Line)
  | valueParse (parstr : Line) (valuestr : Line)
  | tableValueParse (parname : Line) (valuestr : Line)
  | tableLength (parname : Line) (valuestr : Line) (found : Nat)
  | tableParity (parname : Line) (valuestr : Line)
deriving DecidableEq

/-- A parsed parameter value: int, float, string, or table of floats. -/
inductive ParValue
  | int (z : ℤ)
  | float (q : ℚ)
  | str (s : Line)
  | table (t : List ℚ)
deriving DecidableEq

/-- The reader's result: the retained header plus the parameter mapping
(association list in Python-dict insertion order). -/
structure CaboFile where
  header : List Line
  params : List (Line × ParValue)
deriving DecidableEq

/-- `_find_header`: index of the first non-comment line; header before it,
body from it with remaining comment lines filtered out; error when every
line is a comment. -/
def findHeader (fc : List Line) : Except CaboError (List Line × List Line) :=
  match fc.findIdx? (fun l => !(isComment l)) with
  | none => .error .noBody
  | some i => .ok (fc.take i, (fc.drop i).filter (fun l => !(isComment l)))

/-- The per-line classification rule used by `_find_parameter_sections`. -/
inductive ParameterKind
  | scalar
  | tableSeries
  | quotedString
deriving DecidableEq

/-- Classification of a body line: the `if "'" in line / elif "," in line / else`
chain of `_find_parameter_sections`. -/
def classify (l : Line) : ParameterKind :=
  if l.any (fun c => c == squote) then .quotedString
  else if l.any (fun c => c == ',') then .tableSeries
  else .scalar

/-- The bucketing loop of `_find_parameter_sections`, in encounter order:
returns `(scalars, strings, tables)`. -/
def splitSections : List Line → List Line × List Line × List Line
  | [] => ([], [], [])
  | line :: rest =>
    let (sc, st, tb) := splitSections rest
    if line.any (fun c => c == squote) then (sc, line :: st, tb)
    else if line.any (fun c => c == ',') then (sc, st, line :: tb)
    else (line :: sc, st, tb)

/-- `" ".join(data)`. -/
def joinSp (ls : List Line) : Line := List.intercalate [' '] ls

/-- `_find_parameter_sections`: bucket the body lines and join each bucket with
a single space; returns `(scalars, strings, tables)`. -/
def findParameterSections (body : List Line) : Line × Line × Line :=
  (joinSp (splitSections body).1, joinSp (splitSections body).2.1, joinSp (splitSections body).2.2)

/-- `[a-zA-Z0-9_]`. -/
def isIdentChar (c : Char) : Bool :=
  ('a' ≤ c && c ≤ 'z') || ('A' ≤ c && c ≤ 'Z') || ('0' ≤ c && c ≤ '9') || c == '_'

/-- `[0-9]`. -/
def isDigitChar (c : Char) : Bool := '0' ≤ c && c ≤ '9'

/-- The scalar value class `[a-zA-Z0-9_.\-]`. -/
def isScalarValChar (c : Char) : Bool := isIdentChar c || c == '.' || c == '-'

/-- The table value class `[0-9,.\s\-+]`. -/
def isTableValChar (c : Char) : Bool :=
  isDigitChar c || c == ',' || c == '.' || isWSChar c || c == '-' || c == '+'

abbrev Matcher := Line → Option (Line × Line)

/-- Matches the common pattern head `[a-zA-Z0-9_]+[\s]*=`; returns the matched
span and the remainder after `=`.  The classes are disjoint and `=` belongs to
neither, so greedy matching with backtracking equals maximal munch. -/
def matchIdentEq (l : Line) : Option (Line × Line) :=
  if (l.takeWhile isIdentChar).isEmpty then none
  else
    match (l.dropWhile isIdentChar).dropWhile isWSChar with
    | [] => none
    | c :: r3 =>
      if c = '=' then
        some (l.takeWhile isIdentChar ++ (l.dropWhile isIdentChar).takeWhile isWSChar ++ ['='], r3)
      else none

/-- One match of `_re_scalar` at the head of `l`:
`[a-zA-Z0-9_]+[\s]*=[\s]*[a-zA-Z0-9_.\-]+`. -/
def matchScalar (l : Line) : Option (Line × Line) :=
  match matchIdentEq l with
  | none => none
  | some (a, r) =>
    if ((r.dropWhile isWSChar).takeWhile isScalarValChar).isEmpty then none
    else
      some (a ++ r.takeWhile isWSChar ++ (r.dropWhile isWSChar).takeWhile isScalarValChar,
        (r.dropWhile isWSChar).dropWhile isScalarValChar)

/-- One match of `_re_table` at the head of `l`:
`[a-zA-Z0-9_]+[\s]*=[\s]*[0-9,.\s\-+]+`.  Since `\s` is contained in the value
class, `[\s]*[0-9,.\s\-+]+` matches exactly the maximal nonempty run of value
characters after `=`. -/
def matchTable (l : Line) : Option (Line × Line) :=
  match matchIdentEq l with
  | none => none
  | some (a, r) =>
    if (r.takeWhile isTableValChar).isEmpty then none
    else some (a ++ r.takeWhile isTableValChar, r.dropWhile isTableValChar)

/-- Lazy `.*?'`: scan to the nearest single quote; `.` does not cross a
newline.  Returns the content before the quote and the rest after it. -/
def scanToQuote : Line → Option (Line × Line)
  | [] => none
  | c :: rest =>
    if c = '\n' then none
    else if c = squote then some ([], rest)
    else
      match scanToQuote rest with
      | none => none
      | some (a, b) => some (c :: a, b)

/-- One match of `_re_string` at the head of `l`:
`[a-zA-Z0-9_]+[\s]*=[\s]*'.*?'`. -/
def matchString (l : Line) : Option (Line × Line) :=
  match matchIdentEq l with
  | none => none
  | some (a, r) =>
    match (r.dropWhile isWSChar) with
    | [] => none
    | c :: r5 =>
      if c = squote then
        match scanToQuote r5 with
        | none => none
        | some (content, r6) =>
          some (a ++ r.takeWhile isWSChar ++ squote :: content ++ [squote], r6)
      else none

/-- The `re.findall`/`re.sub` scan: at each position try the pattern; on a match
record it and continue after it, otherwise step over one character.  The trace
records matches (`inl`) and unmatched characters (`inr`) in input order.  Fuel
is the input length; every successful match consumes at least one character. -/
def scanF (m : Matcher) : Nat → Line → List (Line ⊕ Char)
  | 0, l => l.map Sum.inr
  | _ + 1, [] => []
  | fuel + 1, c :: cs =>
    match m (c :: cs) with
    | some (a, b) => Sum.inl a :: scanF m fuel b
    | none => Sum.inr c :: scanF m fuel cs

def reScan (m : Matcher) (l : Line) : List (Line ⊕ Char) := scanF m l.length l

def joinTrace : List (Line ⊕ Char) → Line
  | [] => []
  | Sum.inl a :: t => a ++ joinTrace t
  | Sum.inr c :: t => c :: joinTrace t

/-- `re.findall(regexp, s)`: the matches, in left-to-right order. -/
def reFindall (m : Matcher) (l : Line) : List Line :=
  (reScan m l).filterMap (fun x => match x with | Sum.inl a => some a | Sum.inr _ => none)

/-- `re.sub(regexp, "", s)`: the unmatched characters, in order. -/
def reSub (m : Matcher) (l : Line) : Line :=
  (reScan m l).filterMap (fun x => match x with | Sum.inl _ => none | Sum.inr c => some c)

/-- `re.sub(regexp, "", parsections).replace(";", "").strip()`. -/
def extractionResidue (m : Matcher) (s : Line) : Line :=
  stripBoth isWSChar ((reSub m s).filter (fun c => !(c == ';')))

/-- `_find_individual_pardefs`: extract all matches; if text other than `;` and
whitespace remains after removing the matches, fail reporting the extracted
definitions together with the unparsed residue. -/
def findIndividualPardefs (m : Matcher) (s : Line) : Except CaboError (List Line) :=
  if 0 < (extractionResidue m s).length then
    .error (.malformedDefinition (reFindall m s) (extractionResidue m s))
  else .ok (reFindall m s)

/-- Python `str.split(sep)` for a single-character separator (keeps empty
pieces; `"".split(c) = [""]`). -/
def splitOnChar (c : Char) : Line → List Line
  | [] => [[]]
  | x :: xs =>
    if x = c then [] :: splitOnChar c xs
    else
      match splitOnChar c xs with
      | [] => [[x]]
      | h :: t => (x :: h) :: t

def digitsToNat (l : Line) : Nat := l.foldl (fun n c => n * 10 + (c.toNat - ('0').toNat)) 0

/-- The tail of a Python digit group after its first digit: a repetition of
an optional single underscore followed by a digit, so every underscore sits
strictly between two digits. -/
def digitPartTail : Line → Bool
  | [] => true
  | '_' :: c :: rest => isDigitChar c && digitPartTail rest
  | c :: rest => isDigitChar c && digitPartTail rest

/-- A Python digit group, `digit (["_"] digit)*` (PEP 515 underscore digit
grouping, honoured by `int()` and `float()`): nonempty, begins and ends with a
digit, underscores single and between digits only. -/
def isDigitPart (l : Line) : Bool :=
  match l with
  | [] => false
  | c :: rest => isDigitChar c && digitPartTail rest

/-- The digits of a group with the grouping underscores removed. -/
def groupDigits (l : Line) : Line := l.filter (fun c => !(c == '_'))

/-- A Python digit group, as a natural number: `int("1_0") = 10`, while
`"_10"`, `"10_"` and `"1__0"` are rejected. -/
def parseDigits (l : Line) : Option Nat :=
  if isDigitPart l then some (digitsToNat (groupDigits l)) else none

/-- Python `int(s)` (base 10): optional surrounding whitespace, optional sign,
one digit group (with underscore grouping). -/
def parsePyInt (l : Line) : Option ℤ :=
  match stripBoth isWSChar l with
  | '+' :: ds => (parseDigits ds).map (fun n => (n : ℤ))
  | '-' :: ds => (parseDigits ds).map (fun n => -(n : ℤ))
  | ds => (parseDigits ds).map (fun n => (n : ℤ))

/-- The mantissa of a Python float literal: `digits`, `digits.digits`,
`digits.` or `.digits` (at least one digit overall; each digit group may use
PEP 515 underscore grouping, checked per group as `int()` does, so `1_.5` and
`1._5` are rejected while `1_2.5_0` is accepted).  Returned as the pair
`(numerator, fractional digit count)`, denoting `numerator / 10 ^ count`
(kept in integer arithmetic so that the kernel can evaluate it; the final
rational is built with a single `mkRat`). -/
def parseMantissaParts (l : Line) : Option (ℕ × ℕ) :=
  match splitOnChar '.' l with
  | [ip] => (parseDigits ip).map (fun n => (n, 0))
  | [ip, fp] =>
    if ip.isEmpty && fp.isEmpty then none
    else if (ip.isEmpty || isDigitPart ip) && (fp.isEmpty || isDigitPart fp) then
      some (digitsToNat (groupDigits ip) * 10 ^ (groupDigits fp).length +
        digitsToNat (groupDigits fp), (groupDigits fp).length)
    else none
  | _ => none

/-- Split at the first `e`/`E`, if any. -/
def splitAtE : Line → Line × Option Line
  | [] => ([], none)
  | c :: cs =>
    if c = 'e' || c = 'E' then ([], some cs)
    else
      let (m, e) := splitAtE cs
      (c :: m, e)

def parseExpPart (l : Line) : Option ℤ :=
  match l with
  | '+' :: ds => (parseDigits ds).map (fun n => (n : ℤ))
  | '-' :: ds => (parseDigits ds).map (fun n => -(n : ℤ))
  | ds => (parseDigits ds).map (fun n => (n : ℤ))

/-- Python `float(s)` for finite decimal/exponent literals, with the exact
rational value the literal denotes: optional surrounding whitespace, optional
sign, mantissa, optional exponent.  The value `± (M / 10 ^ f) * 10 ^ z` is
assembled in integer arithmetic and turned into `ℚ` by one `mkRat`. -/
def parsePyFloat (l : Line) : Option ℚ :=
  let sb : Bool × Line :=
    match stripBoth isWSChar l with
    | '+' :: r => (false, r)
    | '-' :: r => (true, r)
    | r => (false, r)
  match splitAtE sb.2 with
  | (mant, none) =>
    (parseMantissaParts mant).map (fun p =>
      mkRat (if sb.1 then -(p.1 : ℤ) else (p.1 : ℤ)) (10 ^ p.2))
  | (mant, some ex) =>
    match parseMantissaParts mant, parseExpPart ex with
    | some p, some z =>
      some (mkRat
        (if sb.1 then -(if 0 ≤ z then (p.1 : ℤ) * 10 ^ z.toNat else (p.1 : ℤ))
         else (if 0 ≤ z then (p.1 : ℤ) * 10 ^ z.toNat else (p.1 : ℤ)))
        (if 0 ≤ z then 10 ^ p.2 else 10 ^ p.2 * 10 ^ (-z).toNat))
    | _, _ => none

/-- The conversion loop of `_parse_table_values`: convert each token with
`float`, stopping at the first invalid token. -/
def goTable : List Line → Except TableErr (List ℚ)
  | [] => .ok []
  | v :: vs =>
    match parsePyFloat v with
    | none => .error (.valueError v)
    | some q =>
      match goTable vs with
      | .error e => .error e
      | .ok qs => .ok (q :: qs)

/-- `CABOFileReader._parse_table_values`: strip, split on `,`, require at least
4 tokens, then an even count, then convert every token with `float`. -/
def parseTableValues (parstr : Line) : Except TableErr (List ℚ) :=
  if (splitOnChar ',' (stripBoth isWSChar parstr)).length < 4 then
    .error (.lengthError (splitOnChar ',' (stripBoth isWSChar parstr)).length
      (splitOnChar ',' (stripBoth isWSChar parstr)))
  else if (splitOnChar ',' (stripBoth isWSChar parstr)).length % 2 != 0 then
    .error (.xyPairsError (splitOnChar ',' (stripBoth isWSChar parstr)).length
      (splitOnChar ',' (stripBoth isWSChar parstr)))
  else goTable (splitOnChar ',' (stripBoth isWSChar parstr))

/-- Split at the first occurrence of `c` (Python `split(c, 1)`; also equal to
`split(c)` whenever `c` occurs exactly once, as it does in every extracted
scalar/table definition since `=` is in none of their character classes). -/
def splitFirst (c : Char) : Line → Option (Line × Line)
  | [] => none
  | x :: xs =>
    if x = c then some ([], xs)
    else
      match splitFirst c xs with
      | none => none
      | some (a, b) => some (x :: a, b)

/-- The scalar branch of `CABOFileReader.__init__`: split at `=`, strip the
name, parse the value as float when it contains `.` and as int otherwise. -/
def parseScalarDef (parstr : Line) : Except CaboError (Line × ParValue) :=
  match splitFirst '=' parstr with
  | none => .error (.unpackError parstr)
  | some (pre, post) =>
    if post.any (fun c => c == '.') then
      match parsePyFloat post with
      | some q => .ok (stripBoth isWSChar pre, .float q)
      | none => .error (.valueParse parstr post)
    else
      match parsePyInt post with
      | some z => .ok (stripBoth isWSChar pre, .int z)
      | none => .error (.valueParse parstr post)

/-- The string branch of `CABOFileReader.__init__`: split at the first `=`,
strip the name, remove every single and double quote from the value. -/
def parseStringDef (parstr : Line) : Except CaboError (Line × ParValue) :=
  match splitFirst '=' parstr with
  | none => .error (.unpackError parstr)
  | some (pre, post) =>
    .ok (stripBoth isWSChar pre,
      .str ((post.filter (fun c => !(c == squote))).filter (fun c => !(c == dquote))))

/-- The table branch of `CABOFileReader.__init__`: split at `=`, strip the
name, run `_parse_table_values` and rewrap its errors as the reader does. -/
def parseTableDef (parstr : Line) : Except CaboError (Line × ParValue) :=
  match splitFirst '=' parstr with
  | none => .error (.unpackError parstr)
  | some (pre, post) =>
    match parseTableValues post with
    | .ok qs => .ok (stripBoth isWSChar pre, .table qs)
    | .error (.valueError _) => .error (.tableValueParse (stripBoth isWSChar pre) post)
    | .error (.lengthError n _) => .error (.tableLength (stripBoth isWSChar pre) post n)
    | .error (.xyPairsError _ _) => .error (.tableParity (stripBoth isWSChar pre) post)

/-- `self[parname] = value` on a Python dict: overwrite in place when the key
exists, append otherwise. -/
def insertPar (m : List (Line × ParValue)) (k : Line) (v : ParValue) : List (Line × ParValue) :=
  if m.any (fun p => p.1 == k) then m.map (fun p => if p.1 == k then (k, v) else p)
  else m ++ [(k, v)]

/-- One of the three parameter loops in `__init__`: parse each definition in
order, inserting into the mapping, stopping at the first error. -/
def processDefs (f : Line → Except CaboError (Line × ParValue)) :
    List Line → List (Line × ParValue) → Except CaboError (List (Line × ParValue))
  | [], m => .ok m
  | d :: ds, m =>
    match f d with
    | .error e => .error e
    | .ok (k, v) => processDefs f ds (insertPar m k v)

/-- The tail of `__init__` after the header split: extraction (scalar, table,
string order) and then the three parsing loops (scalar, string, table order). -/
def parseSections (header : List Line) (scalars strings tables : Line) :
    Except CaboError CaboFile :=
  match findIndividualPardefs matchScalar scalars with
  | .error e => .error e
  | .ok scalarDefs =>
    match findIndividualPardefs matchTable tables with
    | .error e => .error e
    | .ok tableDefs =>
      match findIndividualPardefs matchString strings with
      | .error e => .error e
      | .ok stringDefs =>
        match processDefs parseScalarDef scalarDefs [] with
        | .error e => .error e
        | .ok m1 =>
          match processDefs parseStringDef stringDefs m1 with
          | .error e => .error e
          | .ok m2 =>
            match processDefs parseTableDef tableDefs m2 with
            | .error e => .error e
            | .ok m3 => .ok ⟨header, m3⟩

def parseBody (header : List Line) (body : List Line) : Except CaboError CaboFile :=
  parseSections header (findParameterSections body).1 (findParameterSections body).2.1
    (findParameterSections body).2.2

/-- `CABOFileReader.__init__` from the raw line list onward: normalize, check
for emptiness, split the header, and parse the body. -/
def parseCabo (raw : List Line) : Except CaboError CaboFile :=
  if (normalizeLines raw).length = 0 then .error .emptyInput
  else
    match findHeader (normalizeLines raw) with
    | .error e => .error e
    | .ok (header, body) => parseBody header body

instance {E A : Type} [DecidableEq E] [DecidableEq A] : DecidableEq (Except E A) := fun a b =>
  match a, b with
  | .error e1, .error e2 =>
    if h : e1 = e2 then .isTrue (by rw [h]) else .isFalse (by intro hc; cases hc; exact h rfl)
  | .error _, .ok _ => .isFalse (by intro hc; cases hc)
  | .ok _, .error _ => .isFalse (by intro hc; cases hc)
  | .ok v1, .ok v2 =>
    if h : v1 = v2 then .isTrue (by rw [h]) else .isFalse (by intro hc; cases hc; exact h rfl)

/-! ## Shared lemmas about the matchers and the scan -/

/-- A matcher is sound when every match is a nonempty prefix of its input. -/
def MatcherOK (m : Matcher) : Prop :=
  ∀ l a b, m l = some (a, b) → a ++ b = l ∧ a ≠ []

theorem matchIdentEq_spec {l a r : Line} (h : matchIdentEq l = some (a, r)) :
    a ++ r = l ∧ a ≠ [] := by
  unfold matchIdentEq at h
  rcases hE : (l.takeWhile isIdentChar).isEmpty with _ | _
  · rw [hE] at h
    simp only [Bool.false_eq_true, if_false] at h
    rcases hd : (l.dropWhile isIdentChar).dropWhile isWSChar with _ | ⟨c, r3⟩
    · rw [hd] at h; simp at h
    · rw [hd] at h
      simp only [] at h
      by_cases hc : c = '='
      · rw [if_pos hc] at h
        simp only [Option.some.injEq, Prod.mk.injEq] at h
        obtain ⟨ha, hr⟩ := h
        subst hc
        constructor
        · rw [← ha, ← hr]
          have h1 := List.takeWhile_append_dropWhile (p := isWSChar) (l := l.dropWhile isIdentChar)
          have h2 := List.takeWhile_append_dropWhile (p := isIdentChar) (l := l)
          rw [hd] at h1
          calc (l.takeWhile isIdentChar ++ (l.dropWhile isIdentChar).takeWhile isWSChar ++ ['='])
                ++ r3
              = l.takeWhile isIdentChar ++
                ((l.dropWhile isIdentChar).takeWhile isWSChar ++ '=' :: r3) := by
                simp [List.append_assoc]
            _ = l.takeWhile isIdentChar ++ l.dropWhile isIdentChar := by rw [h1]
            _ = l := h2
        · rw [← ha]
          simp
      · rw [if_neg hc] at h; simp at h
  · rw [hE] at h
    simp at h

theorem matchScalar_ok : MatcherOK matchScalar := by
  intro l a b h
  unfold matchScalar at h
  rcases hm : matchIdentEq l with _ | ⟨a0, r⟩
  · rw [hm] at h; simp at h
  · rw [hm] at h
    simp only [] at h
    obtain ⟨hsplit, -⟩ := matchIdentEq_spec hm
    rcases hE : ((r.dropWhile isWSChar).takeWhile isScalarValChar).isEmpty with _ | _
    · rw [hE] at h
      simp only [Bool.false_eq_true, if_false, Option.some.injEq, Prod.mk.injEq] at h
      obtain ⟨ha, hb⟩ := h
      constructor
      · rw [← ha, ← hb]
        have h1 := List.takeWhile_append_dropWhile (p := isScalarValChar)
          (l := r.dropWhile isWSChar)
        have h2 := List.takeWhile_append_dropWhile (p := isWSChar) (l := r)
        calc (a0 ++ r.takeWhile isWSChar ++ (r.dropWhile isWSChar).takeWhile isScalarValChar) ++
              (r.dropWhile isWSChar).dropWhile isScalarValChar
            = a0 ++ (r.takeWhile isWSChar ++ ((r.dropWhile isWSChar).takeWhile isScalarValChar ++
              (r.dropWhile isWSChar).dropWhile isScalarValChar)) := by simp [List.append_assoc]
          _ = a0 ++ (r.takeWhile isWSChar ++ r.dropWhile isWSChar) := by rw [h1]
          _ = a0 ++ r := by rw [h2]
          _ = l := hsplit
      · rw [← ha]
        intro hnil
        rcases List.append_eq_nil.mp hnil with ⟨-, h5⟩
        rw [h5] at hE
        simp [List.isEmpty] at hE
    · rw [hE] at h
      simp at h

theorem matchTable_ok : MatcherOK matchTable := by
  intro l a b h
  unfold matchTable at h
  rcases hm : matchIdentEq l with _ | ⟨a0, r⟩
  · rw [hm] at h; simp at h
  · rw [hm] at h
    simp only [] at h
    obtain ⟨hsplit, -⟩ := matchIdentEq_spec hm
    rcases hE : (r.takeWhile isTableValChar).isEmpty with _ | _
    · rw [hE] at h
      simp only [Bool.false_eq_true, if_false, Option.some.injEq, Prod.mk.injEq] at h
      obtain ⟨ha, hb⟩ := h
      constructor
      · rw [← ha, ← hb]
        have h1 := List.takeWhile_append_dropWhile (p := isTableValChar) (l := r)
        calc (a0 ++ r.takeWhile isTableValChar) ++ r.dropWhile isTableValChar
            = a0 ++ (r.takeWhile isTableValChar ++ r.dropWhile isTableValChar) := by
              simp [List.append_assoc]
          _ = a0 ++ r := by rw [h1]
          _ = l := hsplit
      · rw [← ha]
        intro hnil
        rcases List.append_eq_nil.mp hnil with ⟨-, h5⟩
        rw [h5] at hE
        simp [List.isEmpty] at hE
    · rw [hE] at h
      simp at h

theorem scanToQuote_spec : ∀ {l c r : Line}, scanToQuote l = some (c, r) →
    c ++ squote :: r = l := by
  intro l
  induction l with
  | nil => intro c r h; simp [scanToQuote] at h
  | cons x xs ih =>
    intro c r h
    unfold scanToQuote at h
    by_cases hn : x = '\n'
    · rw [if_pos hn] at h; simp at h
    · rw [if_neg hn] at h
      by_cases hq : x = squote
      · rw [if_pos hq] at h
        simp only [Option.some.injEq, Prod.mk.injEq] at h
        obtain ⟨hc, hr⟩ := h
        rw [← hc, ← hr, hq]
        rfl
      · rw [if_neg hq] at h
        rcases hs : scanToQuote xs with _ | ⟨a, b⟩
        · rw [hs] at h; simp at h
        · rw [hs] at h
          simp only [Option.some.injEq, Prod.mk.injEq] at h
          obtain ⟨hc, hr⟩ := h
          rw [← hc, ← hr]
          have := ih hs
          simp only [List.cons_append, this]

theorem matchString_ok : MatcherOK matchString := by
  intro l a b h
  unfold matchString at h
  rcases hm : matchIdentEq l with _ | ⟨a0, r⟩
  · rw [hm] at h; simp at h
  · rw [hm] at h
    simp only [] at h
    obtain ⟨hsplit, -⟩ := matchIdentEq_spec hm
    rcases hd : r.dropWhile isWSChar with _ | ⟨c, r5⟩
    · rw [hd] at h; simp at h
    · rw [hd] at h
      simp only [] at h
      by_cases hq : c = squote
      · rw [if_pos hq] at h
        rcases hs : scanToQuote r5 with _ | ⟨content, r6⟩
        · rw [hs] at h; simp at h
        · rw [hs] at h
          simp only [Option.some.injEq, Prod.mk.injEq] at h
          obtain ⟨ha, hb⟩ := h
          constructor
          · rw [← ha, ← hb]
            have h1 := scanToQuote_spec hs
            have h2 := List.takeWhile_append_dropWhile (p := isWSChar) (l := r)
            rw [hd] at h2
            calc (a0 ++ r.takeWhile isWSChar ++ squote :: content ++ [squote]) ++ r6
                = a0 ++ (r.takeWhile isWSChar ++ squote :: (content ++ squote :: r6)) := by
                  simp [List.append_assoc]
              _ = a0 ++ (r.takeWhile isWSChar ++ squote :: r5) := by rw [h1]
              _ = a0 ++ (r.takeWhile isWSChar ++ c :: r5) := by rw [hq]
              _ = a0 ++ r := by rw [h2]
              _ = l := hsplit
          · rw [← ha]
            simp
      · rw [if_neg hq] at h; simp at h

theorem joinTrace_scanF (m : Matcher) (hm : MatcherOK m) :
    ∀ fuel l, l.length ≤ fuel → joinTrace (scanF m fuel l) = l := by
  intro fuel
  induction fuel with
  | zero =>
    intro l hl
    have : l = [] := List.eq_nil_of_length_eq_zero (Nat.le_zero.mp hl)
    subst this
    rfl
  | succ n ih =>
    intro l hl
    cases l with
    | nil => rfl
    | cons c cs =>
      cases hmc : m (c :: cs) with
      | none =>
        simp only [scanF, hmc, joinTrace]
        rw [ih cs (by simpa using Nat.le_of_succ_le_succ hl)]
      | some ab =>
        obtain ⟨a, b⟩ := ab
        obtain ⟨hab, hane⟩ := hm _ _ _ hmc
        have hlen : a.length + b.length = cs.length + 1 := by
          have := congrArg List.length hab
          simpa using this
        have hb : b.length ≤ n := by
          have ha : 0 < a.length := List.length_pos.mpr hane
          have hcs : cs.length + 1 ≤ n + 1 := by simpa using hl
          omega
        simp only [scanF, hmc, joinTrace]
        rw [ih b hb]
        exact hab

theorem joinTrace_reScan (m : Matcher) (hm : MatcherOK m) (l : Line) :
    joinTrace (reScan m l) = l :=
  joinTrace_scanF m hm l.length l (Nat.le_refl _)

/-- Claim C2: for every category (scalar, table, string), the extractor takes
all non-overlapping pattern matches of the category's joined search string (the
scan trace decomposes the input, so the matches are disjoint spans listed in
left-to-right order), removes the matched spans, strips residual `;` characters
and whitespace, and, when any text remains, fails with the malformed-definition
error reporting both the extracted definitions and the unparsed residue; when
nothing remains it returns the matches. -/
theorem claim2_extraction :
    ∀ (m : Matcher), m = matchScalar ∨ m = matchTable ∨ m = matchString →
    ∀ s : Line,
    joinTrace (reScan m s) = s ∧
    (extractionResidue m s ≠ [] →
      findIndividualPardefs m s =
        .error (.malformedDefinition (reFindall m s) (extractionResidue m s))) ∧
    (extractionResidue m s = [] →
      findIndividualPardefs m s = .ok (reFindall m s)) := by
  intro m hm s
  have hok : MatcherOK m := by
    rcases hm with rfl | rfl | rfl
    exacts [matchScalar_ok, matchTable_ok, matchString_ok]
  refine ⟨joinTrace_reScan m hok s, ?_, ?_⟩
  · intro hne
    have hpos : 0 < (extractionResidue m s).length := by
      cases hr : extractionResidue m s with
      | nil => exact absurd hr hne
      | cons x xs => simp [hr]
    unfold findIndividualPardefs
    rw [if_pos hpos]
  · intro heq
    unfold findIndividualPardefs
    rw [heq]
    simp

theorem claim2_extraction_witness :
    findIndividualPardefs matchTable ("A = 1,2,3,4 ; junk".toList) =
      .error (.malformedDefinition [("A = 1,2,3,4 ").toList] ("junk".toList)) ∧
    findIndividualPardefs matchScalar ("A = 1 ; B = 2".toList) =
      .ok [("A = 1").toList, ("B = 2").toList] := by
  constructor
  · have h := (claim2_extraction matchTable (Or.inr (Or.inl rfl))
      ("A = 1,2,3,4 ; junk".toList)).2.1 (by decide)
    exact h.trans (by decide)
  · have h := (claim2_extraction matchScalar (Or.inl rfl)
      ("A = 1 ; B = 2".toList)).2.2 (by decide)
    exact h.trans (by decide)

theorem splitSections_eq_filter (body : List Line) :
    splitSections body =
      (body.filter (fun l => decide (classify l = .scalar)),
       body.filter (fun l => decide (classify l = .quotedString)),
       body.filter (fun l => decide (classify l = .tableSeries))) := by
  induction body with
  | nil => rfl
  | cons x rest ih =>
    simp only [splitSections, ih]
    by_cases hq : x.any (fun c => c == squote) = true
    · have hcl : classify x = .quotedString := by simp [classify, hq]
      simp [List.filter_cons, hcl, hq]
    · by_cases hc : x.any (fun c => c == ',') = true
      · have hcl : classify x = .tableSeries := by simp [classify, hq, hc]
        simp [List.filter_cons, hcl, hq, hc]
      · have hcl : classify x = .scalar := by simp [classify, hq, hc]
        simp [List.filter_cons, hcl, hq, hc]

/-- Claim C1: every body line is assigned exactly one `ParameterKind` (the
classification is a total function), by rules applied in priority order: a line
containing a quote character (the format's string delimiter `'`) is
`quotedString`; otherwise a line containing a comma is `tableSeries`; otherwise
it is `scalar`.  The section buckets built by `_find_parameter_sections` are
exactly the classification fibers, and a line containing both a quote and a
comma is classified `quotedString`. -/
theorem claim1_classification :
    ∀ body : List Line,
      (findParameterSections body =
        (joinSp (body.filter (fun l => decide (classify l = .scalar))),
         joinSp (body.filter (fun l => decide (classify l = .quotedString))),
         joinSp (body.filter (fun l => decide (classify l = .tableSeries))))) ∧
      ∀ l : Line,
        (l.any (fun c => c == squote) = true → classify l = .quotedString) ∧
        (l.any (fun c => c == squote) = false → l.any (fun c => c == ',') = true →
          classify l = .tableSeries) ∧
        (l.any (fun c => c == squote) = false → l.any (fun c => c == ',') = false →
          classify l = .scalar) ∧
        (l.any (fun c => c == squote) = true → l.any (fun c => c == ',') = true →
          classify l = .quotedString) := by
  intro body
  constructor
  · unfold findParameterSections
    rw [splitSections_eq_filter]
  · intro l
    refine ⟨fun h1 => by simp [classify, h1], fun h1 h2 => by simp [classify, h1, h2],
      fun h1 h2 => by simp [classify, h1, h2], fun h1 _ => by simp [classify, h1]⟩

theorem claim1_classification_witness :
    findParameterSections [("A='x',1").toList] = ([], ("A='x',1").toList, []) ∧
    classify (("A='x',1").toList) = .quotedString ∧
    classify (("X = 1,2").toList) = .tableSeries ∧
    classify (("X = 1").toList) = .scalar := by
  refine ⟨(claim1_classification [("A='x',1").toList]).1.trans (by decide), ?_, ?_, ?_⟩
  · exact ((claim1_classification [("A='x',1").toList]).2 (("A='x',1").toList)).2.2.2
      (by decide) (by decide)
  · exact ((claim1_classification []).2 (("X = 1,2").toList)).2.1 (by decide) (by decide)
  · exact ((claim1_classification []).2 (("X = 1").toList)).2.2.1 (by decide) (by decide)

/-! ## Lemmas about stripping and list scanning -/

theorem dropWhile_head?_false {p : Char → Bool} :
    ∀ {l : Line} {c : Char}, (l.dropWhile p).head? = some c → p c = false := by
  intro l
  induction l with
  | nil => intro c h; simp at h
  | cons a t ih =>
    intro c h
    rw [List.dropWhile_cons] at h
    by_cases hp : p a
    · rw [if_pos hp] at h
      exact ih h
    · rw [if_neg hp] at h
      simp only [List.head?_cons, Option.some.injEq] at h
      rw [← h]
      exact Bool.not_eq_true _ ▸ (by simpa using hp)

theorem stripTrail_prefix (p : Char → Bool) (l : Line) :
    stripTrail p l ++ (l.reverse.takeWhile p).reverse = l := by
  unfold stripTrail
  rw [← List.reverse_append, List.takeWhile_append_dropWhile, List.reverse_reverse]

theorem getLast?_stripTrail {p : Char → Bool} {l : Line} {c : Char}
    (h : (stripTrail p l).getLast? = some c) : p c = false := by
  unfold stripTrail at h
  rw [List.getLast?_reverse] at h
  exact dropWhile_head?_false h

theorem head?_stripBoth {p : Char → Bool} {l : Line} {c : Char}
    (h : (stripBoth p l).head? = some c) : p c = false := by
  unfold stripBoth at h
  have hz := stripTrail_prefix p (l.dropWhile p)
  have : (l.dropWhile p).head? = some c := by
    rw [← hz]
    cases hs : stripTrail p (l.dropWhile p) with
    | nil => rw [hs] at h; simp at h
    | cons x xs =>
      rw [hs] at h
      simp only [List.head?_cons, Option.some.injEq] at h
      simp [h]
  exact dropWhile_head?_false this

theorem getLast?_stripBoth {p : Char → Bool} {l : Line} {c : Char}
    (h : (stripBoth p l).getLast? = some c) : p c = false :=
  getLast?_stripTrail h

theorem mem_stripBoth {p : Char → Bool} {l : Line} {x : Char} (hx : x ∈ stripBoth p l) :
    x ∈ l := by
  unfold stripBoth stripTrail at hx
  have h1 : x ∈ ((l.dropWhile p).reverse.dropWhile p) := List.mem_reverse.mp hx
  have h2 : x ∈ (l.dropWhile p).reverse := (List.dropWhile_sublist _).subset h1
  have h3 : x ∈ l.dropWhile p := List.mem_reverse.mp h2
  exact (List.dropWhile_sublist _).subset h3

theorem dropWhile_eq_self_of_head {p : Char → Bool} {l : Line}
    (h : ∀ c, l.head? = some c → p c = false) : l.dropWhile p = l := by
  cases l with
  | nil => rfl
  | cons a t =>
    rw [List.dropWhile_cons, if_neg]
    simp [h a rfl]

theorem stripBoth_eq_self {p : Char → Bool} {l : Line}
    (h1 : ∀ c, l.head? = some c → p c = false)
    (h2 : ∀ c, l.getLast? = some c → p c = false) : stripBoth p l = l := by
  unfold stripBoth stripTrail
  rw [dropWhile_eq_self_of_head h1]
  have : l.reverse.dropWhile p = l.reverse := by
    apply dropWhile_eq_self_of_head
    intro c hc
    rw [List.head?_reverse] at hc
    exact h2 c hc
  rw [this, List.reverse_reverse]

theorem stripBoth_idem (p : Char → Bool) (l : Line) :
    stripBoth p (stripBoth p l) = stripBoth p l :=
  stripBoth_eq_self (fun _ hc => head?_stripBoth hc) (fun _ hc => getLast?_stripBoth hc)

theorem takeWhile_of_all {p : Char → Bool} : ∀ {l : Line}, (∀ x ∈ l, p x = true) →
    l.takeWhile p = l := by
  intro l
  induction l with
  | nil => intro _; rfl
  | cons a t ih =>
    intro h
    rw [List.takeWhile_cons, if_pos (h a (by simp))]
    rw [ih (fun x hx => h x (by simp [hx]))]

theorem takeWhile_append_stop {p : Char → Bool} {x : Char} (hx : p x = false) :
    ∀ {a : Line} (b : Line), (∀ y ∈ a, p y = true) → (a ++ x :: b).takeWhile p = a := by
  intro a
  induction a with
  | nil =>
    intro b _
    simp only [List.nil_append, List.takeWhile_cons]
    rw [if_neg (by simp [hx])]
  | cons y t ih =>
    intro b h
    simp only [List.cons_append, List.takeWhile_cons]
    rw [if_pos (h y (by simp)), ih b (fun z hz => h z (by simp [hz]))]

theorem getLast?_append_cons (a : Line) (x : Char) (b : Line) :
    (a ++ x :: b).getLast? = (x :: b).getLast? := by
  rw [← List.head?_reverse, ← List.head?_reverse, List.reverse_append]
  cases hr : (x :: b).reverse with
  | nil => exact absurd hr (by simp)
  | cons z zs => simp [hr]

theorem eq_append_of_getLast? : ∀ {l : Line} {c : Char}, l.getLast? = some c →
    ∃ s, l = s ++ [c] := by
  intro l
  induction l with
  | nil => intro c h; simp at h
  | cons x xs ih =>
    intro c h
    cases hxs : xs with
    | nil =>
      rw [hxs] at h
      simp only [List.getLast?_singleton, Option.some.injEq] at h
      exact ⟨[], by simp [h]⟩
    | cons y ys =>
      rw [hxs] at h
      rw [List.getLast?_cons_cons] at h
      obtain ⟨s, hs⟩ := ih (hxs ▸ h)
      refine ⟨x :: s, ?_⟩
      rw [← hxs, hs]
      rfl

theorem findIdx?_take_drop (p : Line → Bool) :
    ∀ (l : List Line) (i : Nat), l.findIdx? (fun x => !(p x)) = some i →
      l.take i = l.takeWhile p ∧ l.drop i = l.dropWhile p := by
  intro l
  induction l with
  | nil => intro i h; simp at h
  | cons a t ih =>
    intro i h
    rw [List.findIdx?_cons] at h
    by_cases hp : p a
    · rw [if_neg (by simp [hp])] at h
      rw [List.findIdx?_succ] at h
      obtain ⟨j, hj, hij⟩ := Option.map_eq_some'.mp h
      obtain ⟨ht, hd⟩ := ih j hj
      subst hij
      constructor
      · rw [List.take_succ_cons, List.takeWhile_cons, if_pos hp, ht]
      · rw [List.drop_succ_cons, List.dropWhile_cons, if_pos hp, hd]
    · rw [if_pos (by simp [hp])] at h
      simp only [Option.some.injEq] at h
      subst h
      constructor
      · rw [List.take_zero, List.takeWhile_cons, if_neg hp]
      · rw [List.drop_zero, List.dropWhile_cons, if_neg hp]

/-- Claim C7: the header is exactly the run of comment lines before the first
non-comment line, kept verbatim; the body is the remainder with any further
comment lines removed; every header line is a comment line and no comment line
survives into the body.  On the concrete 5-comment-line example the header has
exactly 5 entries, body parsing starts at line 6, and no header line occurs
among the keys of the output mapping. -/
theorem claim7_header :
    (∀ (fc h b : List Line), findHeader fc = .ok (h, b) →
      h = fc.takeWhile isComment ∧
      b = (fc.dropWhile isComment).filter (fun l => !(isComment l)) ∧
      (∀ l ∈ h, isComment l = true) ∧ (∀ l ∈ b, isComment l = false)) ∧
    parseCabo [("* h1").toList, ("* h2").toList, ("* h3").toList, ("* h4").toList,
        ("* h5").toList, ("X = 1").toList] =
      .ok ⟨[("* h1").toList, ("* h2").toList, ("* h3").toList, ("* h4").toList,
        ("* h5").toList], [(("X").toList, .int 1)]⟩ ∧
    ([("* h1").toList, ("* h2").toList, ("* h3").toList, ("* h4").toList,
      ("* h5").toList].length = 5 ∧
     ∀ hl ∈ [("* h1").toList, ("* h2").toList, ("* h3").toList, ("* h4").toList,
        ("* h5").toList], ∀ kv ∈ [(("X").toList, ParValue.int 1)], ¬(kv.1 = hl)) := by
  refine ⟨?_, by decide, by decide⟩
  intro fc h b hok
  unfold findHeader at hok
  cases hidx : fc.findIdx? (fun l => !(isComment l)) with
  | none => rw [hidx] at hok; simp at hok
  | some i =>
    rw [hidx] at hok
    simp only [Except.ok.injEq, Prod.mk.injEq] at hok
    obtain ⟨hh, hb⟩ := hok
    obtain ⟨ht, hd⟩ := findIdx?_take_drop isComment fc i hidx
    refine ⟨by rw [← hh, ht], by rw [← hb, hd], ?_, ?_⟩
    · intro l hl
      rw [← hh, ht] at hl
      exact List.mem_takeWhile_imp hl
    · intro l hl
      rw [← hb] at hl
      have := (List.mem_filter.mp hl).2
      simpa using this

theorem claim7_header_witness :
    ([("* a").toList] = ([("* a").toList, ("b").toList, ("* c").toList] : List Line).takeWhile
      isComment) ∧
    ([("b").toList] = (([("* a").toList, ("b").toList, ("* c").toList] : List Line).dropWhile
      isComment).filter (fun l => !(isComment l))) ∧
    (∀ l ∈ ([("* a").toList] : List Line), isComment l = true) := by
  have h := claim7_header.1 [("* a").toList, ("b").toList, ("* c").toList]
    [("* a").toList] [("b").toList] (by rfl)
  exact ⟨h.1, h.2.1, h.2.2.1⟩

/-- Claim C8: an input with no lines left after normalization fails with the
empty-input error; a nonempty normalized input consisting solely of comment
lines fails with the no-body error; hence an input with no non-blank,
non-comment content always errors and never yields an empty mapping. -/
theorem claim8_empty :
    ∀ raw : List Line,
      (normalizeLines raw = [] → parseCabo raw = .error .emptyInput) ∧
      (normalizeLines raw ≠ [] → (∀ l ∈ normalizeLines raw, isComment l = true) →
        parseCabo raw = .error .noBody) := by
  intro raw
  constructor
  · intro h
    unfold parseCabo
    rw [h]
    simp
  · intro hne hall
    unfold parseCabo
    have hlen : ¬((normalizeLines raw).length = 0) := by
      intro h0
      exact hne (List.eq_nil_of_length_eq_zero h0)
    rw [if_neg hlen]
    have hidx : (normalizeLines raw).findIdx? (fun l => !(isComment l)) = none := by
      rw [List.findIdx?_eq_none_iff]
      intro x hx
      simp [hall x hx]
    unfold findHeader
    rw [hidx]

theorem claim8_empty_witness :
    parseCabo [("   ").toList, (" ! c").toList] = .error .emptyInput ∧
    parseCabo [("* only").toList] = .error .noBody := by
  constructor
  · exact (claim8_empty [("   ").toList, (" ! c").toList]).1 (by rfl)
  · exact (claim8_empty [("* only").toList]).2 (by decide) (by decide)

/-- Claim C9 counterexample: the normalizer does not trim every leading or
trailing whitespace character.  `_remove_whitespace` strips only space, LF and
CR (`strip(" \n\r")`), so the line `"\tA\n"` normalizes to `"\tA"`, which still
begins with the tab character, a whitespace character. -/
theorem claim9_counterexample :
    normalizeLines [("\tA\n").toList] = [('\t' :: ['A'])] ∧
    ('\t' :: ['A']).head? = some '\t' ∧
    Char.isWhitespace '\t' = true := by
  refine ⟨?_, rfl, by decide⟩
  decide

/-- Claim C9 (amended): every line output by the normalizer is the prefix of
the original line before its first `!` (so the text from the first `!` onward
is discarded and no `!` survives), stripped of leading and trailing space,
newline and carriage-return characters (tab and the other whitespace
characters are not trimmed); lines that become empty are dropped, so every
output line is non-empty. -/
theorem claim9_amended :
    ∀ raw : List Line,
      (normalizeLines raw =
        (raw.map (fun o => stripBoth isStripChar (o.takeWhile (fun c => !(c == '!'))))).filter
          (fun l => decide (0 < l.length))) ∧
      ∀ l ∈ normalizeLines raw,
        l ≠ [] ∧ (∀ c ∈ l, ¬(c = '!')) ∧
        (∀ c, l.head? = some c → isStripChar c = false) ∧
        (∀ c, l.getLast? = some c → isStripChar c = false) := by
  intro raw
  have hfuse : normalizeLines raw =
      (raw.map (fun o => stripBoth isStripChar (o.takeWhile (fun c => !(c == '!'))))).filter
        (fun l => decide (0 < l.length)) := by
    unfold normalizeLines removeEmptyLines removeWhitespace removeInlineComments
    rw [List.map_map]
    rfl
  refine ⟨hfuse, ?_⟩
  intro l hl
  rw [hfuse] at hl
  obtain ⟨hmem, hpred⟩ := List.mem_filter.mp hl
  obtain ⟨o, ho, hol⟩ := List.mem_map.mp hmem
  have hne : l ≠ [] := by
    intro h0
    rw [h0] at hpred
    simp at hpred
  refine ⟨hne, ?_, ?_, ?_⟩
  · intro c hc
    rw [← hol] at hc
    have h1 := mem_stripBoth hc
    have h2 := List.mem_takeWhile_imp h1
    simpa using h2
  · intro c hc
    rw [← hol] at hc
    exact head?_stripBoth hc
  · intro c hc
    rw [← hol] at hc
    exact getLast?_stripBoth hc

theorem claim9_amended_witness :
    ("a b").toList ≠ [] ∧ (∀ c ∈ ("a b").toList, ¬(c = '!')) ∧
    (∀ c, (("a b").toList).head? = some c → isStripChar c = false) ∧
    (∀ c, (("a b").toList).getLast? = some c → isStripChar c = false) :=
  (claim9_amended [(" a b !c ").toList]).2 (("a b").toList) (by decide)

theorem splitFirst_append {c : Char} : ∀ {pre : Line} (post : Line), (∀ x ∈ pre, ¬(x = c)) →
    splitFirst c (pre ++ c :: post) = some (pre, post) := by
  intro pre
  induction pre with
  | nil => intro post _; simp [splitFirst]
  | cons y t ih =>
    intro post h
    have hy : ¬(y = c) := h y (by simp)
    simp only [List.cons_append, splitFirst, List.append_eq]
    rw [if_neg hy, ih post (fun x hx => h x (by simp [hx]))]

theorem goTable_ok_iff : ∀ (ts : List Line) (qs : List ℚ),
    goTable ts = .ok qs ↔ ts.mapM parsePyFloat = some qs := by
  intro ts
  induction ts with
  | nil => intro qs; rw [List.mapM_nil]; simp [goTable, Option.pure_def, eq_comm]
  | cons t ts ih =>
    intro qs
    rw [List.mapM_cons]
    cases hf : parsePyFloat t with
    | none => simp [goTable, hf]
    | some q =>
      simp only [goTable, hf]
      constructor
      · intro h
        cases hg : goTable ts with
        | error e => rw [hg] at h; simp at h
        | ok l =>
          rw [hg] at h
          simp only [Except.ok.injEq] at h
          rw [(ih l).mp hg]
          simp [Option.pure_def, ← h]
      · intro h
        cases hm : ts.mapM parsePyFloat with
        | none => rw [hm] at h; simp at h
        | some bs =>
          rw [hm] at h
          simp only [Option.pure_def, Option.bind_eq_bind, Option.some_bind,
            Option.some.injEq] at h
          rw [(ih bs).mpr hm]
          simp [← h]

theorem goTable_first_error : ∀ (pre : List Line) (t : Line) (post : List Line),
    (∀ u ∈ pre, parsePyFloat u ≠ none) → parsePyFloat t = none →
    goTable (pre ++ t :: post) = .error (.valueError t) := by
  intro pre
  induction pre with
  | nil => intro t post _ ht; simp [goTable, ht]
  | cons u us ih =>
    intro t post h ht
    have hu : parsePyFloat u ≠ none := h u (by simp)
    cases hf : parsePyFloat u with
    | none => exact absurd hf hu
    | some q =>
      simp only [List.cons_append, goTable, hf, List.append_eq]
      rw [ih t post (fun x hx => h x (by simp [hx])) ht]

theorem goTable_error_of_mem : ∀ {ts : List Line}, [] ∈ ts →
    ∃ e, goTable ts = .error e := by
  intro ts
  induction ts with
  | nil => intro h; simp at h
  | cons t ts ih =>
    intro h
    rcases List.mem_cons.mp h with h1 | h2
    · have hf : parsePyFloat t = none := by rw [← h1]; rfl
      exact ⟨.valueError t, by simp [goTable, hf]⟩
    · obtain ⟨e, he⟩ := ih h2
      cases hf : parsePyFloat t with
      | none => exact ⟨.valueError t, by simp [goTable, hf]⟩
      | some q => exact ⟨e, by simp [goTable, hf, he]⟩

theorem parseTableValues_short {v : Line}
    (h : (splitOnChar ',' (stripBoth isWSChar v)).length < 4) :
    parseTableValues v = .error (.lengthError (splitOnChar ',' (stripBoth isWSChar v)).length
      (splitOnChar ',' (stripBoth isWSChar v))) := by
  unfold parseTableValues
  rw [if_pos h]

theorem parseTableValues_odd {v : Line}
    (h4 : 4 ≤ (splitOnChar ',' (stripBoth isWSChar v)).length)
    (hodd : (splitOnChar ',' (stripBoth isWSChar v)).length % 2 = 1) :
    parseTableValues v = .error (.xyPairsError (splitOnChar ',' (stripBoth isWSChar v)).length
      (splitOnChar ',' (stripBoth isWSChar v))) := by
  unfold parseTableValues
  rw [if_neg (by omega), if_pos (by simp [hodd])]

theorem parseTableValues_even {v : Line}
    (h4 : 4 ≤ (splitOnChar ',' (stripBoth isWSChar v)).length)
    (heven : (splitOnChar ',' (stripBoth isWSChar v)).length % 2 = 0) :
    parseTableValues v = goTable (splitOnChar ',' (stripBoth isWSChar v)) := by
  unfold parseTableValues
  rw [if_neg (by omega), if_neg (by simp [heven])]

/-- Claim C3: table validation runs in this order: fewer than 4 comma-separated
tokens raises the length error carrying the observed count (regardless of
parity, so the length check precedes the parity check); an odd count of at
least 4 raises the parity error carrying the count; otherwise every token is
converted by `float`, failing on the first invalid token, and on success the
value is the flat ordered sequence of floats.  Concretely, `X = 1,2,3` raises
the length error, `X = 1,2,3,4,5` the parity error, and `X = 1,2,3,4` yields
`[1.0, 2.0, 3.0, 4.0]`. -/
theorem claim3_table :
    (∀ v : Line,
      ((splitOnChar ',' (stripBoth isWSChar v)).length < 4 →
        parseTableValues v = .error (.lengthError (splitOnChar ',' (stripBoth isWSChar v)).length
          (splitOnChar ',' (stripBoth isWSChar v)))) ∧
      (4 ≤ (splitOnChar ',' (stripBoth isWSChar v)).length →
        (splitOnChar ',' (stripBoth isWSChar v)).length % 2 = 1 →
        parseTableValues v = .error (.xyPairsError (splitOnChar ',' (stripBoth isWSChar v)).length
          (splitOnChar ',' (stripBoth isWSChar v)))) ∧
      (4 ≤ (splitOnChar ',' (stripBoth isWSChar v)).length →
        (splitOnChar ',' (stripBoth isWSChar v)).length % 2 = 0 →
        parseTableValues v = goTable (splitOnChar ',' (stripBoth isWSChar v)))) ∧
    (∀ (ts : List Line) (qs : List ℚ), goTable ts = .ok qs ↔ ts.mapM parsePyFloat = some qs) ∧
    (∀ (pre : List Line) (t : Line) (post : List Line),
      (∀ u ∈ pre, parsePyFloat u ≠ none) → parsePyFloat t = none →
      goTable (pre ++ t :: post) = .error (.valueError t)) ∧
    parseCabo [("X = 1,2,3").toList] =
      .error (.tableLength (("X").toList) ((" 1,2,3").toList) 3) ∧
    parseCabo [("X = 1,2,3,4,5").toList] =
      .error (.tableParity (("X").toList) ((" 1,2,3,4,5").toList)) ∧
    parseCabo [("X = 1,2,3,4").toList] =
      .ok ⟨[], [(("X").toList, .table [1, 2, 3, 4])]⟩ := by
  refine ⟨?_, goTable_ok_iff, goTable_first_error, by decide, by decide, by decide⟩
  intro v
  exact ⟨fun h => parseTableValues_short h, fun h4 hodd => parseTableValues_odd h4 hodd,
    fun h4 heven => parseTableValues_even h4 heven⟩

theorem claim3_table_witness :
    parseTableValues ((" 9, 8, 7 ").toList) =
      .error (.lengthError 3 [("9").toList, (" 8").toList, (" 7").toList]) ∧
    parseTableValues (("9,8,7,6,5").toList) =
      .error (.xyPairsError 5 [("9").toList, ("8").toList, ("7").toList, ("6").toList,
        ("5").toList]) ∧
    parseTableValues (("9,8,7,6").toList) = .ok [9, 8, 7, 6] := by
  refine ⟨?_, ?_, ?_⟩
  · have h := ((claim3_table.1 ((" 9, 8, 7 ").toList)).1 (by decide))
    exact h.trans (by decide)
  · have h := ((claim3_table.1 (("9,8,7,6,5").toList)).2.1 (by decide) (by decide))
    exact h.trans (by decide)
  · have h := ((claim3_table.1 (("9,8,7,6").toList)).2.2 (by decide) (by decide))
    exact h.trans (by decide)

/-- Claim C4: a scalar definition is split at the `=`; the name is the text
before it with surrounding whitespace stripped; the value substring is parsed
as a float when it contains a `.` and as an integer otherwise (both conversions
accept PEP 515 underscore digit grouping, so `A = 1_0` stores the int `10` and
`A = 1_2.5` the float `12.5`), and a value that is not a valid number of the
selected kind produces the value-parse error.  Concretely `NAME = 12.5` yields
the float `12.5` under key `NAME`, `NAME = 12` yields the int `12`, and
`NAME = 12.3.4` errors. -/
theorem claim4_scalar :
    (∀ pre post : Line, (∀ x ∈ pre, ¬(x = '=')) →
      ((post.any (fun c => c == '.') = true →
        parseScalarDef (pre ++ '=' :: post) =
          (match parsePyFloat post with
           | some q => .ok (stripBoth isWSChar pre, ParValue.float q)
           | none => .error (.valueParse (pre ++ '=' :: post) post))) ∧
      (post.any (fun c => c == '.') = false →
        parseScalarDef (pre ++ '=' :: post) =
          (match parsePyInt post with
           | some z => .ok (stripBoth isWSChar pre, ParValue.int z)
           | none => .error (.valueParse (pre ++ '=' :: post) post))))) ∧
    parseCabo [("NAME = 12.5").toList] =
      .ok ⟨[], [(("NAME").toList, .float ((25 : ℚ) / 2))]⟩ ∧
    parseCabo [("NAME = 12").toList] = .ok ⟨[], [(("NAME").toList, .int 12)]⟩ ∧
    parseCabo [("NAME = 12.3.4").toList] =
      .error (.valueParse (("NAME = 12.3.4").toList) ((" 12.3.4").toList)) ∧
    parseCabo [("A = 1_0").toList] = .ok ⟨[], [(("A").toList, .int 10)]⟩ ∧
    parseCabo [("A = 1_2.5").toList] =
      .ok ⟨[], [(("A").toList, .float ((25 : ℚ) / 2))]⟩ := by
  have hq : (25 : ℚ) / 2 = mkRat 25 2 := by
    rw [Rat.mkRat_eq_divInt, Rat.divInt_eq_div]
    norm_num
  refine ⟨?_, by rw [hq]; decide, by decide, by decide, by decide, by rw [hq]; decide⟩
  intro pre post hpre
  constructor
  · intro hdot
    unfold parseScalarDef
    rw [splitFirst_append post hpre]
    simp only []
    rw [if_pos hdot]
  · intro hdot
    unfold parseScalarDef
    rw [splitFirst_append post hpre]
    simp only []
    rw [if_neg (by simp [hdot])]

theorem claim4_scalar_witness :
    parseScalarDef (("NAME ").toList ++ '=' :: (" 12.5").toList) =
      .ok ((("NAME").toList), .float ((25 : ℚ) / 2)) ∧
    parseScalarDef (("N").toList ++ '=' :: ("7").toList) =
      .ok ((("N").toList), .int 7) ∧
    parseScalarDef (("N").toList ++ '=' :: ("1.2.3").toList) =
      .error (.valueParse (("N").toList ++ '=' :: ("1.2.3").toList) (("1.2.3").toList)) ∧
    parseScalarDef (("A").toList ++ '=' :: (" 1_0").toList) =
      .ok ((("A").toList), .int 10) := by
  have hq : (25 : ℚ) / 2 = mkRat 25 2 := by
    rw [Rat.mkRat_eq_divInt, Rat.divInt_eq_div]
    norm_num
  refine ⟨?_, ?_, ?_, ?_⟩
  · have h := (claim4_scalar.1 (("NAME ").toList) ((" 12.5").toList) (by decide)).1 (by decide)
    refine h.trans ?_
    rw [hq]
    decide
  · have h := (claim4_scalar.1 (("N").toList) (("7").toList) (by decide)).2 (by decide)
    exact h.trans (by decide)
  · have h := (claim4_scalar.1 (("N").toList) (("1.2.3").toList) (by decide)).1 (by decide)
    exact h.trans (by decide)
  · have h := (claim4_scalar.1 (("A").toList) ((" 1_0").toList) (by decide)).2 (by decide)
    exact h.trans (by decide)

/-- Claim C6: a string definition is split at the first `=` only, so the value
may itself contain `=`; every single-quote and double-quote character anywhere
in the value is removed, not just the delimiting pair; the parsed value never
contains a quote character.  Concretely the body line `NAME='a "b" c'` yields
the string `a b c` under key `NAME`. -/
theorem claim6_string :
    (∀ pre post : Line, (∀ x ∈ pre, ¬(x = '=')) →
      parseStringDef (pre ++ '=' :: post) =
        .ok (stripBoth isWSChar pre,
          .str (post.filter (fun c => !(c == dquote) && !(c == squote))))) ∧
    (∀ (s k : Line) (v : Line), parseStringDef s = .ok (k, ParValue.str v) →
      ∀ c ∈ v, ¬(c = squote) ∧ ¬(c = dquote)) ∧
    parseCabo [("NAME='a \"b\" c'").toList] =
      .ok ⟨[], [(("NAME").toList, .str (("a b c").toList))]⟩ := by
  refine ⟨?_, ?_, by decide⟩
  · intro pre post hpre
    unfold parseStringDef
    rw [splitFirst_append post hpre]
    simp only []
    rw [List.filter_filter]
  · intro s k v h c hc
    unfold parseStringDef at h
    cases hsplit : splitFirst '=' s with
    | none => rw [hsplit] at h; simp at h
    | some pr =>
      obtain ⟨pre, post⟩ := pr
      rw [hsplit] at h
      simp only [Except.ok.injEq, Prod.mk.injEq, ParValue.str.injEq] at h
      obtain ⟨-, hv⟩ := h
      rw [← hv] at hc
      obtain ⟨hc1, hc2⟩ := List.mem_filter.mp hc
      obtain ⟨-, hc3⟩ := List.mem_filter.mp hc1
      constructor
      · intro he
        rw [he] at hc3
        simp at hc3
      · intro he
        rw [he] at hc2
        simp at hc2

theorem claim6_string_witness :
    parseStringDef (("NAME").toList ++ '=' :: ("'a \"b\" c' = 'd'").toList) =
      .ok ((("NAME").toList), .str (("a b c = d").toList)) :=
  have h := claim6_string.1 (("NAME").toList) (("'a \"b\" c' = 'd'").toList) (by decide)
  h.trans (by decide)

theorem splitOnChar_ne_nil (c : Char) : ∀ l : Line, splitOnChar c l ≠ [] := by
  intro l
  induction l with
  | nil => simp [splitOnChar]
  | cons x xs ih =>
    unfold splitOnChar
    by_cases hx : x = c
    · rw [if_pos hx]; simp
    · rw [if_neg hx]
      cases hs : splitOnChar c xs with
      | nil => exact absurd hs ih
      | cons h t => simp

theorem splitOnChar_append_last (c : Char) : ∀ s : Line,
    splitOnChar c (s ++ [c]) = splitOnChar c s ++ [[]] := by
  intro s
  induction s with
  | nil => simp [splitOnChar]
  | cons x xs ih =>
    by_cases hx : x = c
    · simp only [List.cons_append, splitOnChar, if_pos hx, List.append_eq, ih]
    · simp only [List.cons_append, splitOnChar, if_neg hx, List.append_eq, ih]
      cases hs : splitOnChar c xs with
      | nil => exact absurd hs (splitOnChar_ne_nil c xs)
      | cons h t => simp

/-- Claim C10: the table extraction pattern keeps a trailing comma inside the
matched value; splitting the value on commas then produces an empty final token
that is counted toward the token count and, when the count checks pass, is fed
to the float parser, which rejects it; a table value ending in a comma is
therefore never accepted.  Concretely, for the body `X = 1,2,3,4,` the match is
the whole line, the split has 5 tokens ending with the empty token, and the
reader raises the parity error; for the six-token value ` 1,2,3,4,5,` the float
conversion of the empty final token raises the value error. -/
theorem claim10_trailing_comma :
    (∀ v : Line, (stripBoth isWSChar v).getLast? = some ',' →
      ∃ e, parseTableValues v = .error e) ∧
    reFindall matchTable (("X = 1,2,3,4,").toList) = [("X = 1,2,3,4,").toList] ∧
    splitOnChar ',' (("1,2,3,4,").toList) = [("1").toList, ("2").toList, ("3").toList,
      ("4").toList, []] ∧
    parseCabo [("X = 1,2,3,4,").toList] =
      .error (.tableParity (("X").toList) ((" 1,2,3,4,").toList)) ∧
    parseTableValues ((" 1,2,3,4,5,").toList) = .error (.valueError []) := by
  refine ⟨?_, by decide, by decide, by decide, by decide⟩
  intro v hlast
  obtain ⟨s, hs⟩ := eq_append_of_getLast? hlast
  have htok : splitOnChar ',' (stripBoth isWSChar v) = splitOnChar ',' s ++ [[]] := by
    rw [hs, splitOnChar_append_last]
  have hmem : [] ∈ splitOnChar ',' (stripBoth isWSChar v) := by
    rw [htok]
    simp
  by_cases h4 : (splitOnChar ',' (stripBoth isWSChar v)).length < 4
  · exact ⟨_, parseTableValues_short h4⟩
  · by_cases hodd : (splitOnChar ',' (stripBoth isWSChar v)).length % 2 = 1
    · exact ⟨_, parseTableValues_odd (by omega) hodd⟩
    · obtain ⟨e, he⟩ := goTable_error_of_mem hmem
      refine ⟨e, ?_⟩
      rw [parseTableValues_even (by omega) (by omega)]
      exact he

theorem joinSp_single (a : Line) : joinSp [a] = a := by
  simp [joinSp, List.intercalate]

theorem joinSp_pair (a b : Line) : joinSp [a, b] = a ++ ' ' :: b := by
  simp [joinSp, List.intercalate, List.intersperse]

/-- Claim C5: a table parameter value split across two consecutive raw lines
(with a trailing comma on the first line so that both lines classify as table
lines, and possibly inline comments on the physical lines) parses to exactly
the same result as the same value written on one line: the normalizer reduces
the raw lines to `l1` and `l2`, the classifier joins same-category lines with
a single space, and from that point on the reader runs on the identical joined
string, so reassembly is achieved by the extraction pattern alone. -/
theorem claim5_multiline :
    ∀ (r1 r2 l1 l2 : Line),
      stripBoth isStripChar (r1.takeWhile (fun c => !(c == '!'))) = l1 →
      stripBoth isStripChar (r2.takeWhile (fun c => !(c == '!'))) = l2 →
      l1 ≠ [] → l2 ≠ [] →
      l1.any (fun c => c == squote) = false → l2.any (fun c => c == squote) = false →
      l1.any (fun c => c == ',') = true → l2.any (fun c => c == ',') = true →
      isComment l1 = false → isComment l2 = false →
      parseCabo [r1, r2] = parseCabo [l1 ++ ' ' :: l2] := by
  intro r1 r2 l1 l2 hr1 hr2 h1e h2e h1q h2q h1c h2c h1n h2n
  have hpos1 : 0 < l1.length := List.length_pos.mpr h1e
  have hpos2 : 0 < l2.length := List.length_pos.mpr h2e
  -- facts inherited from being a normalized line
  have hstrip1 : stripBoth isStripChar l1 = l1 := by
    rw [← hr1]; exact stripBoth_idem _ _
  have hstrip2 : stripBoth isStripChar l2 = l2 := by
    rw [← hr2]; exact stripBoth_idem _ _
  have hbang1 : ∀ x ∈ l1, (!(x == '!')) = true := by
    intro x hx
    rw [← hr1] at hx
    exact List.mem_takeWhile_imp (p := fun c => !(c == '!')) (mem_stripBoth hx)
  have hbang2 : ∀ x ∈ l2, (!(x == '!')) = true := by
    intro x hx
    rw [← hr2] at hx
    exact List.mem_takeWhile_imp (p := fun c => !(c == '!')) (mem_stripBoth hx)
  have hhead1 : ∀ c, l1.head? = some c → isStripChar c = false := by
    intro c hc
    rw [← hr1] at hc
    exact head?_stripBoth hc
  have hlast2 : ∀ c, l2.getLast? = some c → isStripChar c = false := by
    intro c hc
    rw [← hr2] at hc
    exact getLast?_stripBoth hc
  -- normalization of the two-line input
  have hnorm1 : normalizeLines [r1, r2] = [l1, l2] := by
    unfold normalizeLines removeEmptyLines removeWhitespace removeInlineComments
    simp only [List.map_cons, List.map_nil]
    rw [hr1, hr2]
    simp [List.filter_cons, List.filter_nil, hpos1, hpos2]
  -- normalization of the one-line input
  have htakeR : (l1 ++ ' ' :: l2).takeWhile (fun c => !(c == '!')) = l1 ++ ' ' :: l2 := by
    apply takeWhile_of_all
    intro x hx
    rcases List.mem_append.mp hx with hx1 | hx2
    · exact hbang1 x hx1
    · rcases List.mem_cons.mp hx2 with hx3 | hx4
      · rw [hx3]; decide
      · exact hbang2 x hx4
  have hstripR : stripBoth isStripChar (l1 ++ ' ' :: l2) = l1 ++ ' ' :: l2 := by
    apply stripBoth_eq_self
    · intro c hc
      cases hl1 : l1 with
      | nil => exact absurd hl1 h1e
      | cons a t =>
        rw [hl1] at hc
        simp only [List.cons_append, List.head?_cons, Option.some.injEq] at hc
        apply hhead1
        rw [hl1, ← hc]
        rfl
    · intro c hc
      rw [getLast?_append_cons] at hc
      cases hl2 : l2 with
      | nil => exact absurd hl2 h2e
      | cons b t =>
        rw [hl2, List.getLast?_cons_cons] at hc
        apply hlast2
        rw [hl2]
        exact hc
  have hnormR : normalizeLines [l1 ++ ' ' :: l2] = [l1 ++ ' ' :: l2] := by
    unfold normalizeLines removeEmptyLines removeWhitespace removeInlineComments
    simp only [List.map_cons, List.map_nil]
    rw [htakeR, hstripR]
    simp [List.filter_cons, List.filter_nil]
  -- header split on both sides
  have hhdL : findHeader [l1, l2] = .ok ([], [l1, l2]) := by
    unfold findHeader
    rw [List.findIdx?_cons, if_pos (by simp [h1n])]
    simp [h1n, h2n]
  have hcomR : isComment (l1 ++ ' ' :: l2) = false := by
    cases hl1 : l1 with
    | nil => exact absurd hl1 h1e
    | cons a t =>
      rw [hl1] at h1n
      simpa [isComment] using h1n
  have hhdR : findHeader [l1 ++ ' ' :: l2] = .ok ([], [l1 ++ ' ' :: l2]) := by
    unfold findHeader
    rw [List.findIdx?_cons, if_pos (by simp [hcomR])]
    simp [hcomR]
  -- sections on both sides
  have hqR : (l1 ++ ' ' :: l2).any (fun c => c == squote) = false := by
    have hsp : (' ' == squote) = false := by decide
    simp [List.any_append, List.any_cons, h1q, h2q, hsp]
  have hcRR : (l1 ++ ' ' :: l2).any (fun c => c == ',') = true := by
    simp [List.any_append, h1c]
  have hsecL : findParameterSections [l1, l2] = ([], [], l1 ++ ' ' :: l2) := by
    unfold findParameterSections
    have : splitSections [l1, l2] = ([], [], [l1, l2]) := by
      simp [splitSections, h1q, h1c, h2q, h2c]
    rw [this]
    simp only []
    rw [joinSp_pair]
    rfl
  have hsecR : findParameterSections [l1 ++ ' ' :: l2] = ([], [], l1 ++ ' ' :: l2) := by
    unfold findParameterSections
    have : splitSections [l1 ++ ' ' :: l2] = ([], [], [l1 ++ ' ' :: l2]) := by
      simp [splitSections, hqR, hcRR]
    rw [this]
    simp only []
    rw [joinSp_single]
    rfl
  -- assemble
  unfold parseCabo
  rw [hnorm1, hnormR, if_neg (by simp), if_neg (by simp), hhdL, hhdR]
  simp only []
  unfold parseBody
  rw [hsecL, hsecR]

theorem claim5_multiline_witness :
    parseCabo [("DTSMTB   =   0.00,    0.00,     ! daily increase").toList,
        ("45.00,   30.00 ! more").toList] =
      parseCabo [("DTSMTB   =   0.00,    0.00,").toList ++ ' ' :: ("45.00,   30.00").toList] :=
  claim5_multiline (("DTSMTB   =   0.00,    0.00,     ! daily increase").toList)
    (("45.00,   30.00 ! more").toList)
    (("DTSMTB   =   0.00,    0.00,").toList) (("45.00,   30.00").toList)
    (by decide) (by decide) (by decide) (by decide) (by decide) (by decide)
    (by decide) (by decide) (by decide) (by decide)

theorem claim10_trailing_comma_witness :
    ∃ e, parseTableValues ((" 1,2,3,4,").toList) = .error e :=
  claim10_trailing_comma.1 ((" 1,2,3,4,").toList) (by decide)
